import Mathlib

/-!
Shallow embedding of the `parity-setup` RPC transaction generator
(`src/main.rs` plus the generator strategies declared by `mod generator;`).

The account pool, the RPC envelope types, `parse_config_file` and
`generate_transactions` are translated from `src/main.rs`.  The file
`src/generator.rs` (the `RandomTransactions` and `WinnerLoser` iterator
strategies and the seeded random source) is not present in the sources, so
those parts are modelled from the specification, as marked on each
definition.

Machine integers: Rust `u64` balances are embedded as `Int` so that the
non-negativity invariant is a real statement; transfer amounts are `Nat`.
-/

namespace ParitySetup

/-- `Account` from `src/main.rs` (lines 58-62): an id and a balance.  The Rust
balance is `u64`; it is embedded as `Int` so that non-negativity is a
statement rather than a typing artifact. -/
structure Account where
  id : String
  balance : Int
deriving Repr, DecidableEq

/-- A generated transaction triple `(from, to, amount)`, as yielded by the
generator iterators (`Iterator<Item = (AccountId, AccountId, u64)>`). -/
abbrev Triple := String × String × Nat

/-- The two concrete generator strategies dispatched by
`generate_transactions` (`src/main.rs` lines 223-231). -/
inductive Strategy where
  | random
  | winnerLoser
deriving Repr, DecidableEq

/-- Modelled from the spec: `src/generator.rs` is missing from the sources, so
the "externally supplied, seedable pseudo-random generator; deterministic
given the same seed" is modelled as a 64-bit linear-congruential step: the
next state is both the new seed and the drawn value. -/
def rngNext (s : Nat) : Nat × Nat :=
  let s' := (6364136223846793005 * s + 1442695040888963407) % (2 ^ 64)
  (s', s')

/-- Mutable generator state: the account pool (mutably borrowed by the
generator for its lifetime) together with the random-source state. -/
structure GenState where
  accounts : List Account
  rng : Nat
deriving Repr, DecidableEq

/-- Pick an index distinct from `i` out of `n` indices, from one random
draw `r`: a draw in `[0, n-2]` is shifted past `i`.  Used to guarantee the
spec's `sender ≠ receiver` constraint. -/
def pickOther (n i r : Nat) : Nat :=
  let j0 := r % (n - 1)
  if i ≤ j0 then j0 + 1 else j0

/-- Apply the transfer of the spec's common step algorithm, step 3:
`sender.balance -= amount; receiver.balance += amount`, with the sender at
index `i` and the receiver at index `j` of the pool. -/
def applyTransfer (accounts : List Account) (i j : Nat) (amount : Nat) :
    List Account :=
  match accounts[i]?, accounts[j]? with
  | some s, some t =>
      (accounts.set i { s with balance := s.balance - (amount : Int) }).set j
        { t with balance := t.balance + (amount : Int) }
  | _, _ => accounts

/-- Every balance in the pool is zero (the spec's "no account can ever be a
legal, >0-capable sender"). -/
def allZero (accounts : List Account) : Bool :=
  accounts.all (fun a => a.balance == 0)

/-- The spec's two unrecoverable-generation conditions (§4.2 failure
semantics): fewer than 2 accounts, or every balance zero. -/
def exhausted (accounts : List Account) : Bool :=
  decide (accounts.length < 2) || allZero accounts

/-- Shared tail of one generation step: given chosen sender index `i` and
receiver index `j`, draw the amount uniformly in `[0, sender.balance]`,
apply the transfer and yield the triple. -/
def stepCore (accounts : List Account) (rng : Nat) (i j : Nat) :
    Option (Triple × GenState) :=
  match accounts[i]?, accounts[j]? with
  | some s, some t =>
      let (rs, r) := rngNext rng
      let amount := r % (s.balance.toNat + 1)
      some ((s.id, t.id, amount), ⟨applyTransfer accounts i j amount, rs⟩)
  | _, _ => none

/-- Modelled from the spec: `src/generator.rs` is missing from the sources,
so "produce next" for the two strategies follows the spec's common step
algorithm (§4.2).  A pool of fewer than 2 accounts, or one in which every
balance is zero, terminates the sequence (failure semantics of §4.2 / §7).
`random` picks sender and receiver uniformly with `sender ≠ receiver`;
`winner-loser` designates a seed-derived rotating winner and biases
transfers (3 out of 4 draws) to flow from a loser to the winner. -/
def genStep (strat : Strategy) (st : GenState) : Option (Triple × GenState) :=
  let n := st.accounts.length
  if exhausted st.accounts then none
  else
    match strat with
    | .random =>
        let r1 := rngNext st.rng
        let i := r1.2 % n
        let r2 := rngNext r1.1
        let j := pickOther n i r2.2
        stepCore st.accounts r2.1 i j
    | .winnerLoser =>
        let r1 := rngNext st.rng
        let w := r1.2 % n
        let r2 := rngNext r1.1
        let r3 := rngNext r2.1
        let l := pickOther n w r3.2
        if r2.2 % 4 == 0 then stepCore st.accounts r3.1 w l
        else stepCore st.accounts r3.1 l w

/-- One logged generation step: the state before the pull, the yielded
triple, and the state after the pull. -/
structure StepLog where
  pre : GenState
  tx : Triple
  post : GenState
deriving Repr, DecidableEq

/-- Pull up to `fuel` transactions, logging for each one the pool state
immediately before and immediately after it. -/
def runTrace (strat : Strategy) (st : GenState) : Nat → List StepLog
  | 0 => []
  | fuel + 1 =>
      match genStep strat st with
      | none => []
      | some (tx, st') => ⟨st, tx, st'⟩ :: runTrace strat st' fuel

/-- Pull up to `fuel` transactions: the yielded triples and the final
generator state. -/
def run (strat : Strategy) (st : GenState) : Nat → List Triple × GenState
  | 0 => ([], st)
  | fuel + 1 =>
      match genStep strat st with
      | none => ([], st)
      | some (tx, st') =>
          let rest := run strat st' fuel
          (tx :: rest.1, rest.2)

/-- Balance of the account with the given id (0 if absent); ids are unique
within a pool by the spec's construction precondition. -/
def balanceOf (accounts : List Account) (who : String) : Int :=
  match accounts.find? (fun a => a.id == who) with
  | some a => a.balance
  | none => 0

/-- Sum of all balances in the pool. -/
def sumBalances (accounts : List Account) : Int :=
  (accounts.map (fun a => a.balance)).sum

/-- Lowercase hexadecimal digits of `n`, most significant first, as produced
by Rust's `{:x}` formatter. -/
def hexDigits (n : Nat) : String :=
  String.mk (Nat.toDigits 16 n)

/-- `format!("0x{:x}", value)` from `src/main.rs` line 247. -/
def toHex (n : Nat) : String :=
  "0x" ++ hexDigits n

/-- `Transaction` from `src/main.rs` (lines 51-56); `from` and `to` are Lean
keywords, hence the field names `from_` and `to_`.  The `value` field holds
the already-rendered hexadecimal amount string. -/
structure RpcTransaction where
  from_ : String
  to_ : String
  value : String
deriving Repr, DecidableEq

/-- `Wrapper<PersonalSendTransactionParams>` from `src/main.rs` (lines 21-40):
the request envelope around `(Transaction, Password)` params. -/
structure PersonalSendTransaction where
  jsonrpc : String
  method : String
  params : RpcTransaction × String
  id : Nat
deriving Repr, DecidableEq

/-- `PersonalSendTransaction::new` from `src/main.rs` (lines 32-40). -/
def PersonalSendTransaction.new (params : RpcTransaction × String) (id : Nat) :
    PersonalSendTransaction :=
  ⟨"2.0", "personal_sendTransaction", params, id⟩

/-- `passwords[&from]` on the password `HashMap`; embedded as association-list
lookup, returning `none` where the Rust indexing would panic. -/
def lookupPassword (passwords : List (String × String)) (k : String) :
    Option String :=
  List.lookup k passwords

/-- The `take(count)` stage of `generate_transactions` (`src/main.rs` lines
233-236). -/
def takeStream (count : Option Nat) (ts : List Triple) : List Triple :=
  match count with
  | some n => ts.take n
  | none => ts

/-- The `filter` stage of `generate_transactions` (`src/main.rs` lines
238-241): keep only the triples whose `from` equals the filter id. -/
def filterStream (filter_from : Option String) (ts : List Triple) :
    List Triple :=
  match filter_from with
  | some f => ts.filter (fun tr => tr.1 == f)
  | none => ts

/-- The body of the `.map(...)` closure in `generate_transactions`
(`src/main.rs` lines 245-250), on one `(id, (from, to, value))` pair: wrap
the triple in an envelope with the amount rendered in hex and the sender's
password; a missing password is the panic of `passwords[&from]`. -/
def envelopeEntry (passwords : List (String × String))
    (p : Nat × Triple) : Except String PersonalSendTransaction :=
  match lookupPassword passwords p.2.1 with
  | some pw =>
      Except.ok (PersonalSendTransaction.new
        (⟨p.2.1, p.2.2.1, toHex p.2.2.2⟩, pw) p.1)
  | none => Except.error ("no password for " ++ p.2.1)

/-- The `.enumerate().map(...).collect()` stage of `generate_transactions`
(`src/main.rs` lines 243-251). -/
def envelope (passwords : List (String × String)) (ts : List Triple) :
    Except String (List PersonalSendTransaction) :=
  ts.enum.mapM (envelopeEntry passwords)

/-- The generator-name dispatch of `generate_transactions` (`src/main.rs`
lines 223-231); the `_ => panic!("Unknown generator type ...")` arm is
embedded as `Except.error`. -/
def strategyOf (generator_type : String) : Except String Strategy :=
  if generator_type = "random" then Except.ok Strategy.random
  else if generator_type = "winner-loser" then Except.ok Strategy.winnerLoser
  else Except.error ("Unknown generator type " ++ generator_type)

/-- How many elements are pulled from the base strategy iterator: the
pipeline `strategy → take(count) → filter → collect` is lazy and `filter`
sits after `take`, so exactly `count` elements (when given) are pulled;
with no count the collection is unbounded and `fuel` bounds the embedding. -/
def pulls (count : Option Nat) (fuel : Nat) : Nat :=
  match count with
  | some n => n
  | none => fuel

/-- `generate_transactions` from `src/main.rs` (lines 212-252): dispatch the
strategy, pull `take(count)`-many elements, filter by sender, then wrap in
envelopes; the `passwords[&from]` panic is embedded as `Except.error`. -/
def generate_transactions (generator_type : String) (accounts : List Account)
    (rng : Nat) (count : Option Nat) (filter_from : Option String)
    (passwords : List (String × String)) (fuel : Nat) :
    Except String (List PersonalSendTransaction × List Account) := do
  let strat ← strategyOf generator_type
  let (base, fin) := run strat ⟨accounts, rng⟩ (pulls count fuel)
  let reported := filterStream filter_from base
  let out ← envelope passwords reported
  pure (out, fin.accounts)

/-- The claim's reading of the combinator order, for comparison with
`generate_transactions`: `Take(N)` applied to the already-filtered stream,
so the output is the first `N` elements of the filtered stream rather than
a filtering of the first `N` generated transactions. -/
def generate_transactions_take_after_filter (generator_type : String)
    (accounts : List Account) (rng : Nat) (count : Option Nat)
    (filter_from : Option String) (passwords : List (String × String))
    (fuel : Nat) :
    Except String (List PersonalSendTransaction × List Account) := do
  let strat ← strategyOf generator_type
  let (base, fin) := run strat ⟨accounts, rng⟩ fuel
  let reported := takeStream count (filterStream filter_from base)
  let out ← envelope passwords reported
  pure (out, fin.accounts)

/-- The chunked-file-writing loop of `main` (`src/main.rs` lines 195-204):
the list of `(file name, chunk)` pairs written, one file per chunk of
`chunk_size` (defaulting to all transactions in one chunk). -/
def writeChunks (output_file : String) (chunk_size : Option Nat)
    (transactions : List PersonalSendTransaction) :
    List (String × List PersonalSendTransaction) :=
  let cs := chunk_size.getD transactions.length
  (List.toChunks cs transactions).enum.map
    (fun p => (output_file ++ "." ++ toString p.1, p.2))

/-- The generation-and-output phase of `main` (`src/main.rs` lines 180-209):
generate the transactions, then write the chunked output files.  A
generation error (a Rust panic) aborts before any file is created, so an
`Except.error` result carries no output files. -/
def runMain (generator_type : String) (accounts : List Account) (rng : Nat)
    (count : Option Nat) (filter_from : Option String)
    (chunk_size : Option Nat) (passwords : List (String × String))
    (output_file : String) (fuel : Nat) :
    Except String
      (List (String × List PersonalSendTransaction) × List Account) := do
  let (transactions, finalAccounts) ←
    generate_transactions generator_type accounts rng count filter_from
      passwords fuel
  pure (writeChunks output_file chunk_size transactions, finalAccounts)

/-- `AccountConfig` from `src/main.rs` (lines 64-69): one JSON account entry,
with the balance still a string. -/
structure AccountConfig where
  id : String
  balance : String
  password : String
deriving Repr, DecidableEq

/-- Rust's `str::parse::<u64>()` as used on the `balance` field: an optional
leading `+`, then one or more ASCII digits, with the value below `2^64`;
expressed over the string's character list. -/
def parseBalance (s : String) : Option Nat :=
  let cs := match s.data with
    | '+' :: rest => rest
    | other => other
  if cs = [] then none
  else if cs.all (fun c => c.isDigit) then
    let v := cs.foldl (fun acc c => acc * 10 + (c.toNat - 48)) 0
    if v < 2 ^ 64 then some v else none
  else none

/-- The account-handling part of `parse_config_file` from `src/main.rs`
(lines 94-121): from the parsed account entries, build the password map
keyed by account id and the account pool with parsed balances; an
unparsable balance is the `expect` panic, embedded as `none`.  The
surrounding scalar config fields (generator, count, seed, ...) pass through
untouched and are not modelled. -/
def parse_config_file (configs : List AccountConfig) :
    Option (List Account × List (String × String)) := do
  let passwords := configs.map (fun c => (c.id, c.password))
  let accounts ← configs.mapM (fun c =>
    (parseBalance c.balance).map (fun b => Account.mk c.id (Int.ofNat b)))
  pure (accounts, passwords)

/-! ### Helper lemmas about the pool operations -/

theorem sumBalances_nil : sumBalances [] = 0 := rfl

theorem sumBalances_cons (a : Account) (l : List Account) :
    sumBalances (a :: l) = a.balance + sumBalances l := by
  simp [sumBalances]

theorem sum_balance_set (l : List Account) (i : Nat) (b x : Account)
    (h : l[i]? = some b) :
    sumBalances (l.set i x) = sumBalances l - b.balance + x.balance := by
  induction l generalizing i with
  | nil => simp at h
  | cons a t ih =>
      cases i with
      | zero =>
          simp only [List.getElem?_cons_zero, Option.some.injEq] at h
          subst h
          simp [sumBalances_cons]
          ring
      | succ i =>
          simp only [List.getElem?_cons_succ] at h
          simp [List.set, sumBalances_cons, ih i h]
          ring

theorem set_getElem?_self (l : List Account) (i : Nat) (a : Account)
    (h : l[i]? = some a) : l.set i a = l := by
  induction l generalizing i with
  | nil => simp at h
  | cons x t ih =>
      cases i with
      | zero =>
          simp only [List.getElem?_cons_zero, Option.some.injEq] at h
          subst h; rfl
      | succ i =>
          simp only [List.getElem?_cons_succ] at h
          simp [List.set, ih i h]

theorem pickOther_lt (n i r : Nat) (h2 : 2 ≤ n) (hi : i < n) :
    pickOther n i r < n := by
  have h1 : r % (n - 1) < n - 1 := Nat.mod_lt _ (by omega)
  simp only [pickOther]
  split <;> omega

theorem pickOther_ne (n i r : Nat) (h2 : 2 ≤ n) (_hi : i < n) :
    pickOther n i r ≠ i := by
  have h1 : r % (n - 1) < n - 1 := Nat.mod_lt _ (by omega)
  simp only [pickOther]
  split <;> omega

theorem applyTransfer_eq {accounts : List Account} {i j : Nat} {s t : Account}
    (a : Nat) (hs : accounts[i]? = some s) (ht : accounts[j]? = some t) :
    applyTransfer accounts i j a =
      (accounts.set i { s with balance := s.balance - (a : Int) }).set j
        { t with balance := t.balance + (a : Int) } := by
  unfold applyTransfer
  rw [hs, ht]

theorem applyTransfer_sum {accounts : List Account} {i j : Nat}
    {s t : Account} (a : Nat) (hij : i ≠ j) (hs : accounts[i]? = some s)
    (ht : accounts[j]? = some t) :
    sumBalances (applyTransfer accounts i j a) = sumBalances accounts := by
  rw [applyTransfer_eq a hs ht]
  have ht' : (accounts.set i { s with balance := s.balance - (a : Int) })[j]? =
      some t := by
    rw [List.getElem?_set_ne hij]; exact ht
  rw [sum_balance_set _ _ _ _ ht', sum_balance_set _ _ _ _ hs]
  ring

theorem applyTransfer_mem {accounts : List Account} {i j : Nat}
    {s t b : Account} (a : Nat) (hs : accounts[i]? = some s)
    (ht : accounts[j]? = some t) (hb : b ∈ applyTransfer accounts i j a) :
    b ∈ accounts ∨ b = { s with balance := s.balance - (a : Int) } ∨
      b = { t with balance := t.balance + (a : Int) } := by
  rw [applyTransfer_eq a hs ht] at hb
  rcases List.mem_or_eq_of_mem_set hb with hb' | rfl
  · rcases List.mem_or_eq_of_mem_set hb' with h | rfl
    · exact Or.inl h
    · exact Or.inr (Or.inl rfl)
  · exact Or.inr (Or.inr rfl)

theorem applyTransfer_ids {accounts : List Account} {i j : Nat}
    {s t : Account} (a : Nat) (hs : accounts[i]? = some s)
    (ht : accounts[j]? = some t) :
    (applyTransfer accounts i j a).map (fun x => x.id) =
      accounts.map (fun x => x.id) := by
  rw [applyTransfer_eq a hs ht, List.map_set, List.map_set]
  have hs' : (accounts.map (fun x => x.id))[i]? = some s.id := by
    rw [List.getElem?_map, hs]; rfl
  have hset : (accounts.map (fun x => x.id)).set i s.id =
      accounts.map (fun x => x.id) := by
    apply List.ext_getElem?
    intro k
    rw [List.getElem?_set]
    split
    · next hik =>
        subst hik
        split
        · next hlt => rw [hs']
        · next hge => rw [eq_comm, List.getElem?_eq_none]; omega
    · rfl
  rw [hset]
  have ht' : (accounts.map (fun x => x.id))[j]? = some t.id := by
    rw [List.getElem?_map, ht]; rfl
  apply List.ext_getElem?
  intro k
  rw [List.getElem?_set]
  split
  · next hjk =>
      subst hjk
      split
      · next hlt => rw [ht']
      · next hge => rw [eq_comm, List.getElem?_eq_none]; omega
  · rfl

theorem applyTransfer_length {accounts : List Account} {i j : Nat}
    {s t : Account} (a : Nat) (hs : accounts[i]? = some s)
    (ht : accounts[j]? = some t) :
    (applyTransfer accounts i j a).length = accounts.length := by
  rw [applyTransfer_eq a hs ht]
  simp [List.length_set]

/-! ### Inversion of one generation step -/

theorem stepCore_eq_some {accounts : List Account} {rng i j : Nat}
    {tx : Triple} {st' : GenState}
    (h : stepCore accounts rng i j = some (tx, st')) :
    ∃ s t a, accounts[i]? = some s ∧ accounts[j]? = some t ∧
      tx = (s.id, t.id, a) ∧ a ≤ s.balance.toNat ∧
      st'.accounts = applyTransfer accounts i j a := by
  unfold stepCore at h
  cases hs : accounts[i]? with
  | none => rw [hs] at h; cases hj : accounts[j]? <;> rw [hj] at h <;> simp at h
  | some s =>
      cases ht : accounts[j]? with
      | none => rw [hs, ht] at h; simp at h
      | some t =>
          rw [hs, ht] at h
          simp only [Option.some.injEq, Prod.mk.injEq] at h
          obtain ⟨htx, hst⟩ := h
          refine ⟨s, t, (rngNext rng).2 % (s.balance.toNat + 1), rfl, rfl,
            htx.symm, Nat.le_of_lt_succ (Nat.mod_lt _ (Nat.succ_pos _)), ?_⟩
          rw [← hst]

theorem length_ge_two_of_not_exhausted {accounts : List Account}
    (h : exhausted accounts = false) : 2 ≤ accounts.length := by
  simp only [exhausted, Bool.or_eq_false_iff, decide_eq_false_iff_not,
    Nat.not_lt] at h
  exact h.1

theorem genStep_spec {strat : Strategy} {st : GenState} {tx : Triple}
    {st' : GenState} (h : genStep strat st = some (tx, st')) :
    ∃ i j s t a, i ≠ j ∧ st.accounts[i]? = some s ∧
      st.accounts[j]? = some t ∧ tx = (s.id, t.id, a) ∧
      a ≤ s.balance.toNat ∧ st'.accounts = applyTransfer st.accounts i j a := by
  cases hx : exhausted st.accounts with
  | true => unfold genStep at h; rw [if_pos hx] at h; simp at h
  | false =>
      have h2 : 2 ≤ st.accounts.length := length_ge_two_of_not_exhausted hx
      cases strat with
      | random =>
          unfold genStep at h
          rw [if_neg (by simp [hx])] at h
          simp only [] at h
          have hiLt : (rngNext st.rng).2 % st.accounts.length <
              st.accounts.length := Nat.mod_lt _ (by omega)
          have hne := pickOther_ne st.accounts.length
            ((rngNext st.rng).2 % st.accounts.length)
            (rngNext (rngNext st.rng).1).2 h2 hiLt
          obtain ⟨s, t, a, hs, ht, htx, ha, hacc⟩ := stepCore_eq_some h
          exact ⟨_, _, s, t, a, fun heq => hne heq.symm, hs, ht, htx, ha, hacc⟩
      | winnerLoser =>
          unfold genStep at h
          rw [if_neg (by simp [hx])] at h
          simp only [] at h
          have hwLt : (rngNext st.rng).2 % st.accounts.length <
              st.accounts.length := Nat.mod_lt _ (by omega)
          have hne := pickOther_ne st.accounts.length
            ((rngNext st.rng).2 % st.accounts.length)
            (rngNext (rngNext (rngNext st.rng).1).1).2 h2 hwLt
          split at h
          · obtain ⟨s, t, a, hs, ht, htx, ha, hacc⟩ := stepCore_eq_some h
            exact ⟨_, _, s, t, a, fun heq => hne heq.symm, hs, ht, htx, ha,
              hacc⟩
          · obtain ⟨s, t, a, hs, ht, htx, ha, hacc⟩ := stepCore_eq_some h
            exact ⟨_, _, s, t, a, hne, hs, ht, htx, ha, hacc⟩

/-! ### Single-step consequences -/

theorem genStep_sum {strat : Strategy} {st : GenState} {tx : Triple}
    {st' : GenState} (h : genStep strat st = some (tx, st')) :
    sumBalances st'.accounts = sumBalances st.accounts := by
  obtain ⟨i, j, s, t, a, hij, hs, ht, _, _, hacc⟩ := genStep_spec h
  rw [hacc, applyTransfer_sum a hij hs ht]

theorem genStep_ids {strat : Strategy} {st : GenState} {tx : Triple}
    {st' : GenState} (h : genStep strat st = some (tx, st')) :
    st'.accounts.map (fun x => x.id) = st.accounts.map (fun x => x.id) := by
  obtain ⟨i, j, s, t, a, _, hs, ht, _, _, hacc⟩ := genStep_spec h
  rw [hacc, applyTransfer_ids a hs ht]

theorem genStep_nonneg {strat : Strategy} {st : GenState} {tx : Triple}
    {st' : GenState} (h : genStep strat st = some (tx, st'))
    (hinv : ∀ a ∈ st.accounts, 0 ≤ a.balance) :
    ∀ a ∈ st'.accounts, 0 ≤ a.balance := by
  obtain ⟨i, j, s, t, a, _, hs, ht, _, ha, hacc⟩ := genStep_spec h
  intro b hb
  rw [hacc] at hb
  have hsMem : s ∈ st.accounts := List.getElem?_mem hs
  have htMem : t ∈ st.accounts := List.getElem?_mem ht
  have hsNn : 0 ≤ s.balance := hinv s hsMem
  have haInt : (a : Int) ≤ s.balance := by
    calc (a : Int) ≤ (s.balance.toNat : Int) := by exact_mod_cast ha
    _ = s.balance := Int.toNat_of_nonneg hsNn
  rcases applyTransfer_mem a hs ht hb with hold | rfl | rfl
  · exact hinv b hold
  · simp only []
    omega
  · have := hinv t htMem
    simp only []
    omega

theorem genStep_sender_mem {strat : Strategy} {st : GenState} {tx : Triple}
    {st' : GenState} (h : genStep strat st = some (tx, st')) :
    tx.1 ∈ st.accounts.map (fun x => x.id) := by
  obtain ⟨i, j, s, t, a, _, hs, _, htx, _, _⟩ := genStep_spec h
  subst htx
  exact List.mem_map.2 ⟨s, List.getElem?_mem hs, rfl⟩

theorem find?_of_getElem?_nodup {l : List Account} {i : Nat} {s : Account}
    (hnd : (l.map (fun x => x.id)).Nodup) (hs : l[i]? = some s) :
    l.find? (fun a => a.id == s.id) = some s := by
  induction l generalizing i with
  | nil => simp at hs
  | cons x t ih =>
      rw [List.map_cons, List.nodup_cons] at hnd
      cases i with
      | zero =>
          simp only [List.getElem?_cons_zero, Option.some.injEq] at hs
          subst hs
          simp [List.find?]
      | succ i =>
          simp only [List.getElem?_cons_succ] at hs
          have hsMem : s ∈ t := List.getElem?_mem hs
          have hxs : x.id ≠ s.id := by
            intro heq
            exact hnd.1 (heq ▸ List.mem_map.2 ⟨s, hsMem, rfl⟩)
          rw [List.find?]
          have : (x.id == s.id) = false := beq_eq_false_iff_ne.2 hxs
          rw [this]
          exact ih hnd.2 hs

theorem genStep_amount {strat : Strategy} {st : GenState} {tx : Triple}
    {st' : GenState} (h : genStep strat st = some (tx, st'))
    (hinv : ∀ a ∈ st.accounts, 0 ≤ a.balance)
    (hnd : (st.accounts.map (fun x => x.id)).Nodup) :
    (tx.2.2 : Int) ≤ balanceOf st.accounts tx.1 := by
  obtain ⟨i, j, s, t, a, _, hs, _, htx, ha, _⟩ := genStep_spec h
  subst htx
  have hfind : st.accounts.find? (fun x => x.id == s.id) = some s :=
    find?_of_getElem?_nodup hnd hs
  simp only [balanceOf, hfind]
  have hsNn : 0 ≤ s.balance := hinv s (List.getElem?_mem hs)
  calc (a : Int) ≤ (s.balance.toNat : Int) := by exact_mod_cast ha
  _ = s.balance := Int.toNat_of_nonneg hsNn

/-! ### Whole-run lemmas, by induction on the fuel -/

theorem runTrace_sum (strat : Strategy) (st : GenState) (fuel : Nat) :
    ∀ log ∈ runTrace strat st fuel,
      sumBalances log.post.accounts = sumBalances log.pre.accounts := by
  induction fuel generalizing st with
  | zero => simp [runTrace]
  | succ n ih =>
      intro log hlog
      unfold runTrace at hlog
      cases hg : genStep strat st with
      | none => rw [hg] at hlog; simp at hlog
      | some p =>
          rw [hg] at hlog
          rcases p with ⟨tx, st'⟩
          rcases List.mem_cons.1 hlog with rfl | htail
          · exact genStep_sum hg
          · exact ih st' log htail

theorem runTrace_nonneg (strat : Strategy) (st : GenState) (fuel : Nat)
    (hinv : ∀ a ∈ st.accounts, 0 ≤ a.balance) :
    ∀ log ∈ runTrace strat st fuel,
      (∀ a ∈ log.pre.accounts, 0 ≤ a.balance) ∧
        (∀ a ∈ log.post.accounts, 0 ≤ a.balance) := by
  induction fuel generalizing st with
  | zero => simp [runTrace]
  | succ n ih =>
      intro log hlog
      unfold runTrace at hlog
      cases hg : genStep strat st with
      | none => rw [hg] at hlog; simp at hlog
      | some p =>
          rw [hg] at hlog
          rcases p with ⟨tx, st'⟩
          rcases List.mem_cons.1 hlog with rfl | htail
          · exact ⟨hinv, genStep_nonneg hg hinv⟩
          · exact ih st' (genStep_nonneg hg hinv) log htail

theorem runTrace_amount (strat : Strategy) (st : GenState) (fuel : Nat)
    (hinv : ∀ a ∈ st.accounts, 0 ≤ a.balance)
    (hnd : (st.accounts.map (fun x => x.id)).Nodup) :
    ∀ log ∈ runTrace strat st fuel,
      0 ≤ (log.tx.2.2 : Int) ∧
        (log.tx.2.2 : Int) ≤ balanceOf log.pre.accounts log.tx.1 := by
  induction fuel generalizing st with
  | zero => simp [runTrace]
  | succ n ih =>
      intro log hlog
      unfold runTrace at hlog
      cases hg : genStep strat st with
      | none => rw [hg] at hlog; simp at hlog
      | some p =>
          rw [hg] at hlog
          rcases p with ⟨tx, st'⟩
          rcases List.mem_cons.1 hlog with rfl | htail
          · exact ⟨Int.natCast_nonneg _, genStep_amount hg hinv hnd⟩
          · exact ih st' (genStep_nonneg hg hinv)
              (genStep_ids hg ▸ hnd) log htail

theorem run_length_le (strat : Strategy) (st : GenState) (fuel : Nat) :
    (run strat st fuel).1.length ≤ fuel := by
  induction fuel generalizing st with
  | zero => simp [run]
  | succ n ih =>
      unfold run
      cases hg : genStep strat st with
      | none => simp
      | some p =>
          rcases p with ⟨tx, st'⟩
          simpa using Nat.succ_le_succ (ih st')

theorem run_sender_mem (strat : Strategy) (st : GenState) (fuel : Nat) :
    ∀ tr ∈ (run strat st fuel).1, tr.1 ∈ st.accounts.map (fun x => x.id) := by
  induction fuel generalizing st with
  | zero => simp [run]
  | succ n ih =>
      intro tr htr
      unfold run at htr
      cases hg : genStep strat st with
      | none => rw [hg] at htr; simp at htr
      | some p =>
          rw [hg] at htr
          rcases p with ⟨tx, st'⟩
          rcases List.mem_cons.1 htr with rfl | htail
          · exact genStep_sender_mem hg
          · exact genStep_ids hg ▸ ih st' tr htail

theorem exhausted_of_conditions {accounts : List Account}
    (h : accounts.length < 2 ∨ ∀ a ∈ accounts, a.balance = 0) :
    exhausted accounts = true := by
  rcases h with h | h
  · simp [exhausted, h]
  · simp only [exhausted, Bool.or_eq_true, decide_eq_true_eq]
    right
    rw [allZero, List.all_eq_true]
    intro a ha
    exact beq_iff_eq.2 (h a ha)

theorem genStep_of_exhausted {accounts : List Account} {rng : Nat}
    (strat : Strategy) (h : exhausted accounts = true) :
    genStep strat ⟨accounts, rng⟩ = none := by
  unfold genStep
  rw [if_pos h]

theorem run_of_exhausted {accounts : List Account} {rng : Nat}
    (strat : Strategy) (fuel : Nat) (h : exhausted accounts = true) :
    run strat ⟨accounts, rng⟩ fuel = ([], ⟨accounts, rng⟩) := by
  cases fuel with
  | zero => rfl
  | succ n =>
      unfold run
      rw [genStep_of_exhausted strat h]

/-! ### Lemmas about the envelope stage -/

theorem envelope_aux {pwds : List (String × String)} {ts : List Triple}
    {out : List PersonalSendTransaction} {k : Nat}
    (h : (List.enumFrom k ts).mapM (envelopeEntry pwds) = Except.ok out) :
    out.length = ts.length ∧
      ∀ i (hi : i < out.length), ∃ tr pw, ts[i]? = some tr ∧
        lookupPassword pwds tr.1 = some pw ∧
        out.get ⟨i, hi⟩ =
          PersonalSendTransaction.new (⟨tr.1, tr.2.1, toHex tr.2.2⟩, pw)
            (k + i) := by
  induction ts generalizing k out with
  | nil =>
      rw [List.enumFrom, List.mapM_nil] at h
      simp only [pure, Except.pure, Except.ok.injEq] at h
      subst h
      exact ⟨rfl, fun i hi => absurd hi (by simp)⟩
  | cons tr ts ih =>
      rw [show List.enumFrom k (tr :: ts) = (k, tr) :: List.enumFrom (k + 1) ts
          from rfl, List.mapM_cons] at h
      cases he : envelopeEntry pwds (k, tr) with
      | error e => rw [he] at h; simp [Bind.bind, Except.bind] at h
      | ok y =>
          rw [he] at h
          cases hm : (List.enumFrom (k + 1) ts).mapM (envelopeEntry pwds) with
          | error e =>
              rw [hm] at h; simp [Bind.bind, Except.bind] at h
          | ok ys =>
              rw [hm] at h
              simp only [Bind.bind, Except.bind, pure, Except.pure,
                Except.ok.injEq] at h
              subst h
              obtain ⟨hlen, hidx⟩ := ih hm
              refine ⟨by simp [hlen], ?_⟩
              intro i hi
              cases i with
              | zero =>
                  unfold envelopeEntry at he
                  cases hlk : lookupPassword pwds tr.1 with
                  | none => rw [hlk] at he; simp at he
                  | some pw =>
                      rw [hlk] at he
                      simp only [Except.ok.injEq] at he
                      exact ⟨tr, pw, by simp, hlk, by simp [← he]⟩
              | succ i =>
                  have hi' : i < ys.length := by
                    simp only [List.length_cons] at hi
                    omega
                  obtain ⟨tr', pw', hts, hlk', hget⟩ := hidx i hi'
                  refine ⟨tr', pw', by simpa using hts, hlk', ?_⟩
                  have : (y :: ys).get ⟨i + 1, hi⟩ = ys.get ⟨i, hi'⟩ := rfl
                  rw [this, hget]
                  congr 1
                  omega

theorem envelope_ok_spec {pwds : List (String × String)} {ts : List Triple}
    {out : List PersonalSendTransaction}
    (h : envelope pwds ts = Except.ok out) :
    out.length = ts.length ∧
      ∀ i (hi : i < out.length), ∃ tr pw, ts[i]? = some tr ∧
        lookupPassword pwds tr.1 = some pw ∧
        out.get ⟨i, hi⟩ =
          PersonalSendTransaction.new (⟨tr.1, tr.2.1, toHex tr.2.2⟩, pw) i := by
  have h0 : (List.enumFrom 0 ts).mapM (envelopeEntry pwds) = Except.ok out := h
  have := envelope_aux h0
  simpa using this

theorem envelope_ok_of_lookup_aux {pwds : List (String × String)}
    {ts : List Triple} (k : Nat)
    (h : ∀ tr ∈ ts, (lookupPassword pwds tr.1).isSome) :
    ∃ out, (List.enumFrom k ts).mapM (envelopeEntry pwds) = Except.ok out := by
  induction ts generalizing k with
  | nil => exact ⟨[], by rw [List.enumFrom, List.mapM_nil]; rfl⟩
  | cons tr ts ih =>
      obtain ⟨pw, hpw⟩ := Option.isSome_iff_exists.1 (h tr (by simp))
      obtain ⟨ys, hys⟩ := ih (k + 1) (fun x hx => h x (by simp [hx]))
      refine ⟨PersonalSendTransaction.new
        (⟨tr.1, tr.2.1, toHex tr.2.2⟩, pw) k :: ys, ?_⟩
      rw [show List.enumFrom k (tr :: ts) = (k, tr) :: List.enumFrom (k + 1) ts
          from rfl, List.mapM_cons]
      have he : envelopeEntry pwds (k, tr) = Except.ok
          (PersonalSendTransaction.new (⟨tr.1, tr.2.1, toHex tr.2.2⟩, pw) k) := by
        unfold envelopeEntry
        rw [hpw]
      rw [he, hys]
      rfl

theorem envelope_ok_of_lookup {pwds : List (String × String)}
    {ts : List Triple}
    (h : ∀ tr ∈ ts, (lookupPassword pwds tr.1).isSome) :
    ∃ out, envelope pwds ts = Except.ok out :=
  envelope_ok_of_lookup_aux 0 h

/-! ### Unfolding `generate_transactions` and `runMain` -/

theorem strategyOf_random : strategyOf "random" = Except.ok Strategy.random := by
  simp [strategyOf]

theorem strategyOf_winner_loser :
    strategyOf "winner-loser" = Except.ok Strategy.winnerLoser := by
  simp [strategyOf]

theorem strategyOf_unknown {gt : String} (h1 : gt ≠ "random")
    (h2 : gt ≠ "winner-loser") :
    strategyOf gt = Except.error ("Unknown generator type " ++ gt) := by
  simp [strategyOf, h1, h2]

theorem generate_transactions_ok_iff {gt : String} {strat : Strategy}
    (hs : strategyOf gt = Except.ok strat) (accounts : List Account)
    (rng : Nat) (count : Option Nat) (ff : Option String)
    (pwds : List (String × String)) (fuel : Nat)
    (out : List PersonalSendTransaction) (fin : List Account) :
    generate_transactions gt accounts rng count ff pwds fuel =
        Except.ok (out, fin) ↔
      envelope pwds (filterStream ff
          (run strat ⟨accounts, rng⟩ (pulls count fuel)).1) = Except.ok out ∧
        fin = (run strat ⟨accounts, rng⟩ (pulls count fuel)).2.accounts := by
  unfold generate_transactions
  rw [hs]
  cases he : envelope pwds (filterStream ff
      (run strat ⟨accounts, rng⟩ (pulls count fuel)).1) with
  | error e =>
      simp [Bind.bind, Except.bind, he]
  | ok out' =>
      simp only [Bind.bind, Except.bind, he, pure, Except.pure,
        Except.ok.injEq, Prod.mk.injEq]
      constructor
      · rintro ⟨rfl, rfl⟩; exact ⟨rfl, rfl⟩
      · rintro ⟨rfl, rfl⟩; exact ⟨rfl, rfl⟩

theorem generate_transactions_err {gt : String} {e : String}
    (hs : strategyOf gt = Except.error e) (accounts : List Account)
    (rng : Nat) (count : Option Nat) (ff : Option String)
    (pwds : List (String × String)) (fuel : Nat) :
    generate_transactions gt accounts rng count ff pwds fuel =
      Except.error e := by
  unfold generate_transactions
  rw [hs]
  rfl

theorem runMain_err {gt : String} {e : String} (accounts : List Account)
    (rng : Nat) (count : Option Nat) (ff : Option String)
    (cs : Option Nat) (pwds : List (String × String)) (outFile : String)
    (fuel : Nat)
    (hg : generate_transactions gt accounts rng count ff pwds fuel =
      Except.error e) :
    runMain gt accounts rng count ff cs pwds outFile fuel = Except.error e := by
  unfold runMain
  rw [hg]
  rfl

/-! ### Lemmas about the config parsing and password lookup -/

theorem mapM_account_ids {configs : List AccountConfig}
    {accs : List Account}
    (h : configs.mapM (fun c =>
        (parseBalance c.balance).map (fun b => Account.mk c.id (Int.ofNat b))) =
      some accs) :
    accs.map (fun a => a.id) = configs.map (fun c => c.id) := by
  induction configs generalizing accs with
  | nil =>
      rw [List.mapM_nil] at h
      simp only [pure, Option.some.injEq] at h
      subst h
      rfl
  | cons c cs ih =>
      rw [List.mapM_cons] at h
      cases hb : parseBalance c.balance with
      | none => rw [hb] at h; simp [Bind.bind] at h
      | some b =>
          rw [hb] at h
          cases hm : cs.mapM (fun c =>
              (parseBalance c.balance).map
                (fun b => Account.mk c.id (Int.ofNat b))) with
          | none => rw [hm] at h; simp [Bind.bind] at h
          | some rest =>
              rw [hm] at h
              simp at h
              subst h
              simp [ih hm]

theorem parse_config_file_ok {configs : List AccountConfig}
    {accounts : List Account} {pwds : List (String × String)}
    (h : parse_config_file configs = some (accounts, pwds)) :
    accounts.map (fun a => a.id) = configs.map (fun c => c.id) ∧
      pwds = configs.map (fun c => (c.id, c.password)) := by
  unfold parse_config_file at h
  cases hm : configs.mapM (fun c =>
      (parseBalance c.balance).map (fun b => Account.mk c.id (Int.ofNat b))) with
  | none => rw [hm] at h; simp [Bind.bind] at h
  | some accs =>
      rw [hm] at h
      simp only [Bind.bind, Option.bind_some, pure, Option.some.injEq,
        Prod.mk.injEq] at h
      obtain ⟨rfl, rfl⟩ := h
      exact ⟨mapM_account_ids hm, rfl⟩

theorem lookup_isSome_of_mem_keys {l : List (String × String)} {k : String}
    (h : k ∈ l.map (fun p => p.1)) : (List.lookup k l).isSome := by
  induction l with
  | nil => simp at h
  | cons p t ih =>
      rw [List.lookup]
      cases hk : k == p.1 with
      | true => rfl
      | false =>
          apply ih
          rcases List.mem_map.1 h with ⟨q, hq, hqk⟩
          rcases List.mem_cons.1 hq with rfl | hqt
          · exact absurd (beq_iff_eq.2 hqk.symm) (by simp [hk])
          · exact List.mem_map.2 ⟨q, hqt, hqk⟩

theorem filterStream_subset (ff : Option String) (ts : List Triple) :
    ∀ tr ∈ filterStream ff ts, tr ∈ ts := by
  cases ff with
  | none => intro tr htr; exact htr
  | some f =>
      intro tr htr
      exact (List.mem_filter.1 htr).1

/-! ### The claims -/

/-- C1: for every fixed seed `S` and fixed initial account pool `P`, two
independent runs of the same strategy over `(S, P)` produce identical
sequences of `(from, to, amount)` triples and identical final balances for
every account.  (In this pure embedding a run is a function of the seed and
the pool, so two runs over equal inputs coincide definitionally.) -/
theorem run_deterministic (strat : Strategy) (P1 P2 : List Account)
    (S1 S2 fuel : Nat) (hP : P1 = P2) (hS : S1 = S2) :
    (run strat ⟨P1, S1⟩ fuel).1 = (run strat ⟨P2, S2⟩ fuel).1 ∧
      ∀ who, balanceOf (run strat ⟨P1, S1⟩ fuel).2.accounts who =
        balanceOf (run strat ⟨P2, S2⟩ fuel).2.accounts who := by
  subst hP
  subst hS
  exact ⟨rfl, fun _ => rfl⟩

theorem run_deterministic_witness :
    ([Account.mk "a" 10, Account.mk "b" 10] =
        [Account.mk "a" 10, Account.mk "b" 10]) ∧ ((1 : Nat) = 1) ∧
      ((run Strategy.random ⟨[Account.mk "a" 10, Account.mk "b" 10], 1⟩ 4).1 =
          (run Strategy.random
            ⟨[Account.mk "a" 10, Account.mk "b" 10], 1⟩ 4).1 ∧
        ∀ who, balanceOf (run Strategy.random
            ⟨[Account.mk "a" 10, Account.mk "b" 10], 1⟩ 4).2.accounts who =
          balanceOf (run Strategy.random
            ⟨[Account.mk "a" 10, Account.mk "b" 10], 1⟩ 4).2.accounts who) :=
  ⟨rfl, rfl, run_deterministic Strategy.random
    [Account.mk "a" 10, Account.mk "b" 10] [Account.mk "a" 10, Account.mk "b" 10]
    1 1 4 rfl rfl⟩

/-- C2: for every transaction generated by either strategy, the amount
satisfies `0 ≤ amount ≤ sender's balance` immediately before that
transaction is applied. -/
theorem generated_amount_bounded (strat : Strategy) (accounts : List Account)
    (rng fuel : Nat) (hinv : ∀ a ∈ accounts, 0 ≤ a.balance)
    (hnd : (accounts.map (fun x => x.id)).Nodup) (log : StepLog)
    (hlog : log ∈ runTrace strat ⟨accounts, rng⟩ fuel) :
    0 ≤ (log.tx.2.2 : Int) ∧
      (log.tx.2.2 : Int) ≤ balanceOf log.pre.accounts log.tx.1 :=
  runTrace_amount strat ⟨accounts, rng⟩ fuel hinv hnd log hlog

theorem generated_amount_bounded_witness :
    (∀ a ∈ [Account.mk "a" 10, Account.mk "b" 10], 0 ≤ a.balance) ∧
      (([Account.mk "a" 10, Account.mk "b" 10].map (fun x => x.id)).Nodup) ∧
      ((⟨⟨[Account.mk "a" 10, Account.mk "b" 10], 1⟩, ("a", "b", 0),
          ⟨[Account.mk "a" 10, Account.mk "b" 10], 11960119808228829710⟩⟩ :
            StepLog)
        ∈ runTrace Strategy.random
            ⟨[Account.mk "a" 10, Account.mk "b" 10], 1⟩ 1) ∧
      (0 ≤ (((0 : Nat)) : Int) ∧ (((0 : Nat)) : Int) ≤
        balanceOf [Account.mk "a" 10, Account.mk "b" 10] "a") :=
  ⟨by decide, by decide, by decide,
    generated_amount_bounded Strategy.random
      [Account.mk "a" 10, Account.mk "b" 10] 1 1 (by decide) (by decide)
      ⟨⟨[Account.mk "a" 10, Account.mk "b" 10], 1⟩, ("a", "b", 0),
        ⟨[Account.mk "a" 10, Account.mk "b" 10], 11960119808228829710⟩⟩
      (by decide)⟩

/-- C3: at every point during generation, under either strategy, every
account's balance is a non-negative integer: the pool before and after
every generated transaction has only balances `≥ 0`. -/
theorem balances_never_negative (strat : Strategy) (accounts : List Account)
    (rng fuel : Nat) (hinv : ∀ a ∈ accounts, 0 ≤ a.balance) (log : StepLog)
    (hlog : log ∈ runTrace strat ⟨accounts, rng⟩ fuel) :
    (∀ a ∈ log.pre.accounts, 0 ≤ a.balance) ∧
      (∀ a ∈ log.post.accounts, 0 ≤ a.balance) :=
  runTrace_nonneg strat ⟨accounts, rng⟩ fuel hinv log hlog

theorem balances_never_negative_witness :
    (∀ a ∈ [Account.mk "a" 10, Account.mk "b" 10], 0 ≤ a.balance) ∧
      ((⟨⟨[Account.mk "a" 10, Account.mk "b" 10], 1⟩, ("b", "a", 10),
          ⟨[Account.mk "a" 20, Account.mk "b" 0], 7062582979898595269⟩⟩ :
            StepLog)
        ∈ runTrace Strategy.winnerLoser
            ⟨[Account.mk "a" 10, Account.mk "b" 10], 1⟩ 1) ∧
      ((∀ a ∈ [Account.mk "a" 10, Account.mk "b" 10], 0 ≤ a.balance) ∧
        (∀ a ∈ [Account.mk "a" 20, Account.mk "b" 0], 0 ≤ a.balance)) :=
  ⟨by decide, by decide,
    balances_never_negative Strategy.winnerLoser
      [Account.mk "a" 10, Account.mk "b" 10] 1 1 (by decide)
      ⟨⟨[Account.mk "a" 10, Account.mk "b" 10], 1⟩, ("b", "a", 10),
        ⟨[Account.mk "a" 20, Account.mk "b" 0], 7062582979898595269⟩⟩
      (by decide)⟩

/-- C4: for every generated transaction, the sum of all account balances in
the pool after applying the transfer equals the sum before it. -/
theorem transfer_conserves_sum (strat : Strategy) (st : GenState)
    (fuel : Nat) (log : StepLog) (hlog : log ∈ runTrace strat st fuel) :
    sumBalances log.post.accounts = sumBalances log.pre.accounts :=
  runTrace_sum strat st fuel log hlog

theorem transfer_conserves_sum_witness :
    ((⟨⟨[Account.mk "a" 10, Account.mk "b" 10], 1⟩, ("b", "a", 10),
        ⟨[Account.mk "a" 20, Account.mk "b" 0], 7062582979898595269⟩⟩ :
          StepLog)
      ∈ runTrace Strategy.winnerLoser
          ⟨[Account.mk "a" 10, Account.mk "b" 10], 1⟩ 1) ∧
      sumBalances [Account.mk "a" 20, Account.mk "b" 0] =
        sumBalances [Account.mk "a" 10, Account.mk "b" 10] :=
  ⟨by decide,
    transfer_conserves_sum Strategy.winnerLoser
      ⟨[Account.mk "a" 10, Account.mk "b" 10], 1⟩ 1
      ⟨⟨[Account.mk "a" 10, Account.mk "b" 10], 1⟩, ("b", "a", 10),
        ⟨[Account.mk "a" 20, Account.mk "b" 0], 7062582979898595269⟩⟩
      (by decide)⟩

/-- C6: if the pool has fewer than 2 accounts, or every account's balance is
0, produce-next terminates the sequence (yields `none`, the exhaustion
signal) and a whole run yields no transactions and leaves the state
untouched — it neither loops nor panics. -/
theorem exhaustion_terminates (strat : Strategy) (accounts : List Account)
    (rng fuel : Nat)
    (h : accounts.length < 2 ∨ ∀ a ∈ accounts, a.balance = 0) :
    genStep strat ⟨accounts, rng⟩ = none ∧
      run strat ⟨accounts, rng⟩ fuel = ([], ⟨accounts, rng⟩) := by
  have hx := exhausted_of_conditions h
  exact ⟨genStep_of_exhausted strat hx, run_of_exhausted strat fuel hx⟩

theorem exhaustion_terminates_witness :
    (([] : List Account).length < 2 ∨ ∀ a ∈ ([] : List Account),
        a.balance = 0) ∧
      (genStep Strategy.random ⟨[], 5⟩ = none ∧
        run Strategy.random ⟨[], 5⟩ 7 = ([], ⟨[], 5⟩)) :=
  ⟨Or.inl (by decide),
    exhaustion_terminates Strategy.random [] 5 7 (Or.inl (by decide))⟩

/-- C8: for every generator name other than `"random"` and `"winner-loser"`,
generation fails with the fatal "Unknown generator type" error, and the
main output phase produces no output files (it propagates the same error
before any file is written). -/
theorem unknown_generator_fatal (gt : String) (accounts : List Account)
    (rng : Nat) (count : Option Nat) (ff : Option String) (cs : Option Nat)
    (pwds : List (String × String)) (outFile : String) (fuel : Nat)
    (h1 : gt ≠ "random") (h2 : gt ≠ "winner-loser") :
    generate_transactions gt accounts rng count ff pwds fuel =
        Except.error ("Unknown generator type " ++ gt) ∧
      runMain gt accounts rng count ff cs pwds outFile fuel =
        Except.error ("Unknown generator type " ++ gt) := by
  have hg := generate_transactions_err (strategyOf_unknown h1 h2) accounts
    rng count ff pwds fuel
  exact ⟨hg, runMain_err accounts rng count ff cs pwds outFile fuel hg⟩

theorem unknown_generator_fatal_witness :
    (("foo" : String) ≠ "random") ∧ (("foo" : String) ≠ "winner-loser") ∧
      (generate_transactions "foo" [Account.mk "a" 10, Account.mk "b" 10] 1
          (some 3) none [("a", "pa"), ("b", "pb")] 5 =
          Except.error ("Unknown generator type " ++ "foo") ∧
        runMain "foo" [Account.mk "a" 10, Account.mk "b" 10] 1 (some 3) none
            none [("a", "pa"), ("b", "pb")] "rpc.json" 5 =
          Except.error ("Unknown generator type " ++ "foo")) :=
  ⟨by decide, by decide,
    unknown_generator_fatal "foo" [Account.mk "a" 10, Account.mk "b" 10] 1
      (some 3) none none [("a", "pa"), ("b", "pb")] "rpc.json" 5 (by decide)
      (by decide)⟩

/-- C5 counterexample: with pool `{a,b,c : 10}`, seed 1, `count = 2` and
`filter-from = "a"`, the code reports 0 transactions, while the first 2
elements of the filtered stream over the same 10-pull horizon number 2 —
so `Take(N)` is not applied to the already-filtered stream: the code takes
first and filters afterwards. -/
theorem take_filter_order_counterexample :
    (generate_transactions "random"
        [Account.mk "a" 10, Account.mk "b" 10, Account.mk "c" 10] 1 (some 2)
        (some "a") [("a", "pa"), ("b", "pb"), ("c", "pc")] 10).map
      (fun p => p.1.length) = Except.ok 0 ∧
    ((filterStream (some "a")
        (run Strategy.random
          ⟨[Account.mk "a" 10, Account.mk "b" 10, Account.mk "c" 10], 1⟩
          10).1).take 2).length = 2 := by
  exact ⟨rfl, rfl⟩

/-- C5 (amended): when both a count `N` and a filter-from id are supplied,
`take(N)` is applied to the raw generated stream and the filter to its
result, so the reported output is the filtering of the first `N` generated
transactions: at most `N` transactions, all with sender equal to the
filter id, but possibly fewer than the first `N` elements of the filtered
stream. -/
theorem take_applied_before_filter (gt : String) (strat : Strategy)
    (hs : strategyOf gt = Except.ok strat) (accounts : List Account)
    (rng n : Nat) (f : String) (pwds : List (String × String)) (fuel : Nat)
    (out : List PersonalSendTransaction) (fin : List Account)
    (h : generate_transactions gt accounts rng (some n) (some f) pwds fuel =
      Except.ok (out, fin)) :
    out.length ≤ n ∧ (∀ e ∈ out, e.params.1.from_ = f) ∧
      envelope pwds (filterStream (some f)
        (run strat ⟨accounts, rng⟩ n).1) = Except.ok out := by
  rw [generate_transactions_ok_iff hs] at h
  obtain ⟨henv, _⟩ := h
  have hpulls : pulls (some n) fuel = n := rfl
  rw [hpulls] at henv
  obtain ⟨hlen, hidx⟩ := envelope_ok_spec henv
  refine ⟨?_, ?_, henv⟩
  · calc out.length
        = (filterStream (some f) (run strat ⟨accounts, rng⟩ n).1).length :=
          hlen
      _ ≤ (run strat ⟨accounts, rng⟩ n).1.length := by
          simpa [filterStream] using
            List.length_filter_le (fun tr => tr.1 == f)
              (run strat ⟨accounts, rng⟩ n).1
      _ ≤ n := run_length_le strat ⟨accounts, rng⟩ n
  · intro e he
    obtain ⟨⟨i, hi⟩, rfl⟩ := List.mem_iff_get.1 he
    obtain ⟨tr, pw, hts, _, hget⟩ := hidx i hi
    have htr : tr ∈ filterStream (some f) (run strat ⟨accounts, rng⟩ n).1 :=
      List.getElem?_mem hts
    have hbeq : (tr.1 == f) = true := (List.mem_filter.1 htr).2
    rw [hget]
    exact beq_iff_eq.1 hbeq

theorem take_applied_before_filter_witness :
    (strategyOf "random" = Except.ok Strategy.random) ∧
      (generate_transactions "random" [Account.mk "a" 10, Account.mk "b" 10]
          1 (some 2) (some "a") [("a", "pa"), ("b", "pb")] 5 =
        Except.ok ([PersonalSendTransaction.new (⟨"a", "b", "0x0"⟩, "pa") 0],
          [Account.mk "a" 12, Account.mk "b" 8])) ∧
      ([PersonalSendTransaction.new (⟨"a", "b", "0x0"⟩, "pa") 0].length ≤ 2 ∧
        (∀ e ∈ [PersonalSendTransaction.new (⟨"a", "b", "0x0"⟩, "pa") 0],
          e.params.1.from_ = "a") ∧
        envelope [("a", "pa"), ("b", "pb")] (filterStream (some "a")
          (run Strategy.random
            ⟨[Account.mk "a" 10, Account.mk "b" 10], 1⟩ 2).1) =
          Except.ok [PersonalSendTransaction.new (⟨"a", "b", "0x0"⟩, "pa") 0]) :=
  ⟨rfl, rfl,
    take_applied_before_filter "random" Strategy.random rfl
      [Account.mk "a" 10, Account.mk "b" 10] 1 2 "a"
      [("a", "pa"), ("b", "pb")] 5
      [PersonalSendTransaction.new (⟨"a", "b", "0x0"⟩, "pa") 0]
      [Account.mk "a" 12, Account.mk "b" 8] rfl⟩

/-- C7: `FilterFrom(T)` yields exactly the subsequence of generated
transactions whose sender equals `T`, in original relative order (it is a
sublist, every yielded element matches, and the count equals the number of
matching elements); and every transaction pulled from the wrapped
generator, matching or not, has already mutated the pool: the final
balances of a filtered `generate_transactions` call equal those of the
unfiltered call over the same inputs. -/
theorem filter_from_exact_subsequence (gt : String) (accounts : List Account)
    (rng : Nat) (count : Option Nat) (pwds : List (String × String))
    (fuel : Nat) (T : String) (out1 out2 : List PersonalSendTransaction)
    (fin1 fin2 : List Account)
    (h1 : generate_transactions gt accounts rng count (some T) pwds fuel =
      Except.ok (out1, fin1))
    (h2 : generate_transactions gt accounts rng count none pwds fuel =
      Except.ok (out2, fin2)) :
    (∀ strat st f,
      (filterStream (some T) (run strat st f).1).Sublist (run strat st f).1 ∧
        (∀ tr ∈ filterStream (some T) (run strat st f).1, tr.1 = T) ∧
        (filterStream (some T) (run strat st f).1).length =
          (run strat st f).1.countP (fun tr => tr.1 == T)) ∧
      fin1 = fin2 := by
  constructor
  · intro strat st f
    refine ⟨List.filter_sublist _, ?_, ?_⟩
    · intro tr htr
      exact beq_iff_eq.1 (List.mem_filter.1 htr).2
    · exact (List.countP_eq_length_filter _ _).symm
  · by_cases hr : gt = "random"
    · subst hr
      rw [generate_transactions_ok_iff strategyOf_random] at h1 h2
      rw [h1.2, h2.2]
    · by_cases hw : gt = "winner-loser"
      · subst hw
        rw [generate_transactions_ok_iff strategyOf_winner_loser] at h1 h2
        rw [h1.2, h2.2]
      · rw [generate_transactions_err (strategyOf_unknown hr hw)] at h1
        simp at h1

theorem filter_from_exact_subsequence_witness :
    (generate_transactions "random" [Account.mk "a" 10, Account.mk "b" 10] 1
        (some 2) (some "a") [("a", "pa"), ("b", "pb")] 5 =
      Except.ok ([PersonalSendTransaction.new (⟨"a", "b", "0x0"⟩, "pa") 0],
        [Account.mk "a" 12, Account.mk "b" 8])) ∧
      (generate_transactions "random" [Account.mk "a" 10, Account.mk "b" 10] 1
          (some 2) none [("a", "pa"), ("b", "pb")] 5 =
        Except.ok ([PersonalSendTransaction.new (⟨"a", "b", "0x0"⟩, "pa") 0,
            PersonalSendTransaction.new (⟨"b", "a", "0x2"⟩, "pb") 1],
          [Account.mk "a" 12, Account.mk "b" 8])) ∧
      ((∀ strat st f,
        (filterStream (some "a") (run strat st f).1).Sublist
            (run strat st f).1 ∧
          (∀ tr ∈ filterStream (some "a") (run strat st f).1, tr.1 = "a") ∧
          (filterStream (some "a") (run strat st f).1).length =
            (run strat st f).1.countP (fun tr => tr.1 == "a")) ∧
        [Account.mk "a" 12, Account.mk "b" 8] =
          [Account.mk "a" 12, Account.mk "b" 8]) :=
  ⟨rfl, rfl,
    filter_from_exact_subsequence "random"
      [Account.mk "a" 10, Account.mk "b" 10] 1 (some 2)
      [("a", "pa"), ("b", "pb")] 5 "a"
      [PersonalSendTransaction.new (⟨"a", "b", "0x0"⟩, "pa") 0]
      [PersonalSendTransaction.new (⟨"a", "b", "0x0"⟩, "pa") 0,
        PersonalSendTransaction.new (⟨"b", "a", "0x2"⟩, "pb") 1]
      [Account.mk "a" 12, Account.mk "b" 8]
      [Account.mk "a" 12, Account.mk "b" 8] rfl rfl⟩

/-- C9: the `i`-th reported transaction (counting from 0, after filtering
and counting) is wrapped in a request envelope whose integer id equals `i`
— ids auto-increment from 0 with no gaps — and its amount is rendered as a
hexadecimal string prefixed with `"0x"`. -/
theorem envelope_ids_increment_and_hex (gt : String) (strat : Strategy)
    (hs : strategyOf gt = Except.ok strat) (accounts : List Account)
    (rng : Nat) (count : Option Nat) (ff : Option String)
    (pwds : List (String × String)) (fuel : Nat)
    (out : List PersonalSendTransaction) (fin : List Account)
    (h : generate_transactions gt accounts rng count ff pwds fuel =
      Except.ok (out, fin)) (i : Nat) (hi : i < out.length) :
    (out.get ⟨i, hi⟩).id = i ∧
      ∃ tr pw, (filterStream ff
          (run strat ⟨accounts, rng⟩ (pulls count fuel)).1)[i]? = some tr ∧
        lookupPassword pwds tr.1 = some pw ∧
        out.get ⟨i, hi⟩ = PersonalSendTransaction.new
          (⟨tr.1, tr.2.1, "0x" ++ hexDigits tr.2.2⟩, pw) i := by
  rw [generate_transactions_ok_iff hs] at h
  obtain ⟨henv, _⟩ := h
  obtain ⟨hlen, hidx⟩ := envelope_ok_spec henv
  obtain ⟨tr, pw, hts, hlk, hget⟩ := hidx i hi
  refine ⟨by rw [hget]; rfl, tr, pw, hts, hlk, ?_⟩
  rw [hget]
  rfl

theorem envelope_ids_increment_and_hex_witness :
    (strategyOf "random" = Except.ok Strategy.random) ∧
      (generate_transactions "random" [Account.mk "a" 10, Account.mk "b" 10]
          1 (some 1) none [("a", "pa"), ("b", "pb")] 5 =
        Except.ok ([PersonalSendTransaction.new (⟨"a", "b", "0x0"⟩, "pa") 0],
          [Account.mk "a" 10, Account.mk "b" 10])) ∧
      (([PersonalSendTransaction.new
            (⟨"a", "b", "0x0"⟩, "pa") 0].get ⟨0, Nat.zero_lt_one⟩).id = 0 ∧
        ∃ tr pw, (filterStream none
            (run Strategy.random ⟨[Account.mk "a" 10, Account.mk "b" 10], 1⟩
              (pulls (some 1) 5)).1)[0]? = some tr ∧
          lookupPassword [("a", "pa"), ("b", "pb")] tr.1 = some pw ∧
          [PersonalSendTransaction.new
              (⟨"a", "b", "0x0"⟩, "pa") 0].get ⟨0, Nat.zero_lt_one⟩ =
            PersonalSendTransaction.new
              (⟨tr.1, tr.2.1, "0x" ++ hexDigits tr.2.2⟩, pw) 0) :=
  ⟨rfl, rfl,
    envelope_ids_increment_and_hex "random" Strategy.random rfl
      [Account.mk "a" 10, Account.mk "b" 10] 1 (some 1) none
      [("a", "pa"), ("b", "pb")] 5
      [PersonalSendTransaction.new (⟨"a", "b", "0x0"⟩, "pa") 0]
      [Account.mk "a" 10, Account.mk "b" 10] rfl 0 Nat.zero_lt_one⟩

/-- C10: when the account pool and the password map are built from the same
parsed configuration (as `parse_config_file` does), every generated
transaction's sender id has an entry in the password map, so the
`passwords[&from]` lookup in `generate_transactions` never fails: the call
returns `ok` for any valid generator name. -/
theorem passwords_cover_generated_senders (configs : List AccountConfig)
    (accounts : List Account) (pwds : List (String × String))
    (hp : parse_config_file configs = some (accounts, pwds)) (gt : String)
    (strat : Strategy) (hs : strategyOf gt = Except.ok strat) (rng : Nat)
    (count : Option Nat) (ff : Option String) (fuel : Nat) :
    (∀ tr ∈ filterStream ff
        (run strat ⟨accounts, rng⟩ (pulls count fuel)).1,
        (lookupPassword pwds tr.1).isSome) ∧
      ∃ r, generate_transactions gt accounts rng count ff pwds fuel =
        Except.ok r := by
  obtain ⟨hids, hpwd⟩ := parse_config_file_ok hp
  have hkeys : pwds.map (fun p => p.1) = accounts.map (fun a => a.id) := by
    rw [hpwd, hids]
    simp
  have hlook : ∀ tr ∈ filterStream ff
      (run strat ⟨accounts, rng⟩ (pulls count fuel)).1,
      (lookupPassword pwds tr.1).isSome := by
    intro tr htr
    apply lookup_isSome_of_mem_keys
    rw [hkeys]
    exact run_sender_mem strat ⟨accounts, rng⟩ _ tr
      (filterStream_subset ff _ tr htr)
  obtain ⟨out, hout⟩ := envelope_ok_of_lookup hlook
  refine ⟨hlook,
    ⟨(out, (run strat ⟨accounts, rng⟩ (pulls count fuel)).2.accounts), ?_⟩⟩
  rw [generate_transactions_ok_iff hs]
  exact ⟨hout, rfl⟩

theorem passwords_cover_generated_senders_witness :
    (parse_config_file [AccountConfig.mk "a" "10" "pa",
        AccountConfig.mk "b" "10" "pb"] =
      some ([Account.mk "a" 10, Account.mk "b" 10],
        [("a", "pa"), ("b", "pb")])) ∧
      (strategyOf "random" = Except.ok Strategy.random) ∧
      ((∀ tr ∈ filterStream none
          (run Strategy.random ⟨[Account.mk "a" 10, Account.mk "b" 10], 1⟩
            (pulls (some 2) 5)).1,
          (lookupPassword [("a", "pa"), ("b", "pb")] tr.1).isSome) ∧
        ∃ r, generate_transactions "random"
            [Account.mk "a" 10, Account.mk "b" 10] 1 (some 2) none
            [("a", "pa"), ("b", "pb")] 5 = Except.ok r) :=
  ⟨by decide, rfl,
    passwords_cover_generated_senders
      [AccountConfig.mk "a" "10" "pa", AccountConfig.mk "b" "10" "pb"]
      [Account.mk "a" 10, Account.mk "b" 10] [("a", "pa"), ("b", "pb")]
      (by decide) "random" Strategy.random rfl 1 (some 2) none 5⟩

end ParitySetup
